import Mathlib

/-!
Verification development for a small DMFT (dynamical mean field theory)
solver notebook: a square-lattice dispersion, a hybridization first-moment
helper, an impurity solver in the static Hartree approximation, a
self-consistency step built on 2-D Brillouin-zone quadrature, and a driver
loop. The external 2-D quadrature routine (scipy dblquad over the square
[-pi, pi] x [-pi, pi]) is abstracted as a functional parameter `quad`;
`exactQuad` interprets it as the exact iterated interval integral.
-/

open Real intervalIntegral

noncomputable section

namespace SolverIQ

/-- The module-level dispersion relation of the notebook:
it takes no hopping parameter. -/
def eps_k (kx ky : ℝ) : ℝ := -2 * (Real.cos kx + Real.cos ky)

/-- The hybridization first-moment helper, parametrized by the external 2-D
quadrature routine over the Brillouin zone. Note that the source subtracts
the plain integral of the dispersion, not its square. -/
def get_hyb_fm (quad : (ℝ → ℝ → ℝ) → ℝ) : ℝ :=
  let int_eps_k := quad (fun kx ky => eps_k kx ky)
  let int_eps_k_squared := quad (fun kx ky => eps_k kx ky * eps_k kx ky)
  1 / (2 * Real.pi) ^ 2 * (int_eps_k_squared - int_eps_k)

/-- The model: hopping, inverse temperature, Hubbard interaction and the
current hybridization sequence. -/
structure Model where
  t : ℝ
  beta : ℝ
  U : ℝ
  hyb : List ℂ

/-- The dispersion method of the model class; unlike the module-level
`eps_k` it multiplies by the hopping `t`. -/
def Model.eps_k (m : Model) (kx ky : ℝ) : ℝ :=
  -2 * m.t * (Real.cos kx + Real.cos ky)

/-- The fermionic Matsubara frequency as it is recomputed at each use site:
`1.0j * (2.0 * n + 1.0) * pi / beta`. -/
def iwn (beta : ℝ) (n : ℕ) : ℂ :=
  Complex.I * (2 * (n : ℂ) + 1) * (Real.pi : ℂ) / (beta : ℂ)

/-- The impurity solver: the self-energy is the constant Hartree value `U/2`
broadcast over the frequency grid, and
`G_imp[n] = 1 / (iwn - hyb[n] - self_energy[n])`. -/
def ImpuritySolver.solve (m : Model) : List ℂ :=
  let self_energy : List ℂ := List.replicate m.hyb.length ((m.U / 2 : ℝ) : ℂ)
  (List.range m.hyb.length).map fun n =>
    1 / (iwn m.beta n - m.hyb.getD n 0 - self_energy.getD n 0)

/-- Step 0 of the self-consistency: extract the self-energy from the
impurity Green function, `Sigma[n] = iwn - hyb[n] - 1/G_imp[n]`. -/
def SelfConsistency.self_energy (m : Model) (green_impurity : List ℂ) :
    List ℂ :=
  (List.range green_impurity.length).map fun n =>
    iwn m.beta n - m.hyb.getD n 0 - 1 / green_impurity.getD n 0

/-- The real part of the lattice Green function at one frequency. -/
def SelfConsistency.green_lattice_scalar_real (m : Model) (kx ky : ℝ)
    (self_energy : List ℂ) (n : ℕ) : ℝ :=
  ((1 : ℂ) / (iwn m.beta n - (m.eps_k kx ky : ℝ) - self_energy.getD n 0)).re

/-- The imaginary part of the lattice Green function at one frequency. -/
def SelfConsistency.green_lattice_scalar_imag (m : Model) (kx ky : ℝ)
    (self_energy : List ℂ) (n : ℕ) : ℝ :=
  ((1 : ℂ) / (iwn m.beta n - (m.eps_k kx ky : ℝ) - self_energy.getD n 0)).im

/-- Step 1 of the self-consistency: the lattice-averaged Green function,
obtained from two real 2-D quadratures (real and imaginary part of the
integrand) recombined and divided by `(2*pi)^2`. -/
def SelfConsistency.green_impurity_new (quad : (ℝ → ℝ → ℝ) → ℝ) (m : Model)
    (green_impurity : List ℂ) : List ℂ :=
  (List.range green_impurity.length).map fun n =>
    (((quad fun kx ky =>
        SelfConsistency.green_lattice_scalar_real m kx ky
          (SelfConsistency.self_energy m green_impurity) n : ℝ) : ℂ)
      + Complex.I * ((quad fun kx ky =>
        SelfConsistency.green_lattice_scalar_imag m kx ky
          (SelfConsistency.self_energy m green_impurity) n : ℝ) : ℂ))
      / (((2 * Real.pi) ^ 2 : ℝ) : ℂ)

/-- Step 2 of the self-consistency: the updated hybridization,
`hyb_new[n] = iwn - 1/green_impurity_new[n] - self_energy[n]`. -/
def SelfConsistency.run_selfconsistency (quad : (ℝ → ℝ → ℝ) → ℝ) (m : Model)
    (green_impurity : List ℂ) : List ℂ :=
  (List.range green_impurity.length).map fun n =>
    iwn m.beta n
      - 1 / (SelfConsistency.green_impurity_new quad m green_impurity).getD n 0
      - (SelfConsistency.self_energy m green_impurity).getD n 0

/-- One pass of the driver loop body: build the model from the current
hybridization, solve the impurity, run the self-consistency step. -/
def oneStep (quad : (ℝ → ℝ → ℝ) → ℝ) (hyb : List ℂ) : List ℂ :=
  let model : Model := ⟨-1, 100, 0, hyb⟩
  let green_impurity := ImpuritySolver.solve model
  SelfConsistency.run_selfconsistency quad model green_impurity

/-- The driver: fixed parameters, zero initial hybridization, `iter_max`
iterations of the cycle with no convergence test, returning the frequency
grid and the final hybridization. -/
def main (quad : (ℝ → ℝ → ℝ) → ℝ) : List ℝ × List ℂ :=
  let n_freq : ℕ := 200
  let t : ℝ := -1
  let beta : ℝ := 100
  let U : ℝ := 0
  let iter_max : ℕ := 5
  let hyb0 : List ℂ := List.replicate n_freq 0
  let hyb := (List.range iter_max).foldl
    (fun hyb _ =>
      let model : Model := ⟨t, beta, U, hyb⟩
      let green_impurity := ImpuritySolver.solve model
      SelfConsistency.run_selfconsistency quad model green_impurity) hyb0
  let frequencies := (List.range n_freq).map
    (fun n : ℕ => (2 * (n : ℝ) + 1) * Real.pi / beta)
  (frequencies, hyb)

/-- The exact interpretation of the external 2-D quadrature: the iterated
interval integral over the square Brillouin zone. -/
def exactQuad (f : ℝ → ℝ → ℝ) : ℝ :=
  ∫ kx in (-Real.pi)..Real.pi, ∫ ky in (-Real.pi)..Real.pi, f kx ky

/- Helper lemmas about list indexing used throughout. -/

theorem getD_range_map {α : Type} (f : ℕ → α) (d : α) {N n : ℕ}
    (h : n < N) : ((List.range N).map f).getD n d = f n := by
  simp [List.getD_eq_getElem?_getD, List.getElem?_range h]

theorem getD_replicate {α : Type} (c d : α) {N n : ℕ} (h : n < N) :
    (List.replicate N c).getD n d = c := by
  simp [List.getD_eq_getElem?_getD, List.getElem?_replicate, h]

theorem solve_length (m : Model) :
    (ImpuritySolver.solve m).length = m.hyb.length := by
  simp [ImpuritySolver.solve]

theorem solve_getD (m : Model) {n : ℕ} (hn : n < m.hyb.length) :
    (ImpuritySolver.solve m).getD n 0
      = 1 / (iwn m.beta n - m.hyb.getD n 0 - ((m.U / 2 : ℝ) : ℂ)) := by
  unfold ImpuritySolver.solve
  rw [getD_range_map _ _ hn, getD_replicate _ _ hn]

theorem self_energy_length (m : Model) (G : List ℂ) :
    (SelfConsistency.self_energy m G).length = G.length := by
  simp [SelfConsistency.self_energy]

theorem self_energy_getD (m : Model) (G : List ℂ) {n : ℕ}
    (hn : n < G.length) :
    (SelfConsistency.self_energy m G).getD n 0
      = iwn m.beta n - m.hyb.getD n 0 - 1 / G.getD n 0 := by
  unfold SelfConsistency.self_energy
  rw [getD_range_map _ _ hn]

theorem iwn_eq_ofReal_mul_I (beta : ℝ) (n : ℕ) :
    iwn beta n = (((2 * n + 1) * Real.pi / beta : ℝ) : ℂ) * Complex.I := by
  unfold iwn
  push_cast
  ring

theorem iwn_im (beta : ℝ) (n : ℕ) :
    (iwn beta n).im = (2 * n + 1) * Real.pi / beta := by
  rw [iwn_eq_ofReal_mul_I]
  simp

theorem green_impurity_new_length (quad : (ℝ → ℝ → ℝ) → ℝ) (m : Model)
    (G : List ℂ) :
    (SelfConsistency.green_impurity_new quad m G).length = G.length := by
  simp [SelfConsistency.green_impurity_new]

theorem green_impurity_new_getD (quad : (ℝ → ℝ → ℝ) → ℝ) (m : Model)
    (G : List ℂ) {n : ℕ} (hn : n < G.length) :
    (SelfConsistency.green_impurity_new quad m G).getD n 0
      = (((quad fun kx ky =>
            SelfConsistency.green_lattice_scalar_real m kx ky
              (SelfConsistency.self_energy m G) n : ℝ) : ℂ)
          + Complex.I * ((quad fun kx ky =>
            SelfConsistency.green_lattice_scalar_imag m kx ky
              (SelfConsistency.self_energy m G) n : ℝ) : ℂ))
          / (((2 * Real.pi) ^ 2 : ℝ) : ℂ) := by
  unfold SelfConsistency.green_impurity_new
  rw [getD_range_map _ _ hn]

theorem run_selfconsistency_length (quad : (ℝ → ℝ → ℝ) → ℝ) (m : Model)
    (G : List ℂ) :
    (SelfConsistency.run_selfconsistency quad m G).length = G.length := by
  simp [SelfConsistency.run_selfconsistency]

theorem run_selfconsistency_getD (quad : (ℝ → ℝ → ℝ) → ℝ) (m : Model)
    (G : List ℂ) {n : ℕ} (hn : n < G.length) :
    (SelfConsistency.run_selfconsistency quad m G).getD n 0
      = iwn m.beta n
        - 1 / (SelfConsistency.green_impurity_new quad m G).getD n 0
        - (SelfConsistency.self_energy m G).getD n 0 := by
  unfold SelfConsistency.run_selfconsistency
  rw [getD_range_map _ _ hn]

/-- An explicitly ignorant quadrature used only to instantiate witnesses. -/
def zeroQuad : (ℝ → ℝ → ℝ) → ℝ := fun _ => 0

theorem oneStep_length (quad : (ℝ → ℝ → ℝ) → ℝ) (hyb : List ℂ) :
    (oneStep quad hyb).length = hyb.length := by
  unfold oneStep
  rw [run_selfconsistency_length, solve_length]

theorem iterate_oneStep_length (quad : (ℝ → ℝ → ℝ) → ℝ) (k : ℕ)
    (hyb : List ℂ) : ((oneStep quad)^[k] hyb).length = hyb.length := by
  induction k with
  | zero => rfl
  | succ j ih => rw [Function.iterate_succ_apply', oneStep_length, ih]

theorem foldl_range_eq_iterate {α : Type} (s : α → α) (x : α) (N : ℕ) :
    (List.range N).foldl (fun a _ => s a) x = s^[N] x := by
  induction N with
  | zero => rfl
  | succ j ih =>
    rw [List.range_succ, List.foldl_append, ih, List.foldl_cons,
      List.foldl_nil, Function.iterate_succ_apply']

theorem main_snd_eq (quad : (ℝ → ℝ → ℝ) → ℝ) :
    (main quad).2 = (oneStep quad)^[5] (List.replicate 200 0) := by
  simp only [main]
  exact foldl_range_eq_iterate (oneStep quad) _ 5

theorem main_fst_eq (quad : (ℝ → ℝ → ℝ) → ℝ) :
    (main quad).1
      = (List.range 200).map
          (fun n : ℕ => (2 * (n : ℝ) + 1) * Real.pi / 100) :=
  rfl

/-- Claim C8: the model dispersion is `-2 t (cos kx + cos ky)` for all real
arguments, with the stated special values at the zone center, the zone face
and the zone corner, for any hopping `t`. -/
theorem c8_model_eps_k (t beta U : ℝ) (hyb : List ℂ) :
    (∀ kx ky : ℝ, Model.eps_k ⟨t, beta, U, hyb⟩ kx ky
        = -2 * t * (Real.cos kx + Real.cos ky))
    ∧ Model.eps_k ⟨t, beta, U, hyb⟩ 0 0 = -4 * t
    ∧ Model.eps_k ⟨t, beta, U, hyb⟩ Real.pi 0 = 0
    ∧ Model.eps_k ⟨t, beta, U, hyb⟩ 0 Real.pi = 0
    ∧ Model.eps_k ⟨t, beta, U, hyb⟩ Real.pi Real.pi = 4 * t := by
  refine ⟨fun kx ky => rfl, ?_, ?_, ?_, ?_⟩ <;>
    simp [Model.eps_k, Real.cos_pi] <;> ring

/-- Claim C10: the module-level dispersion takes no hopping parameter and is
`-2 (cos kx + cos ky)`; it coincides with the model dispersion exactly when
`t = 1` and for no other hopping; and the first-moment helper is a function
of the quadrature alone, built only from the module-level dispersion, hence
independent of any configured hopping. -/
theorem c10_module_eps_k (t beta U : ℝ) (hyb : List ℂ)
    (quad : (ℝ → ℝ → ℝ) → ℝ) :
    (∀ kx ky : ℝ, eps_k kx ky = -2 * (Real.cos kx + Real.cos ky))
    ∧ ((∀ kx ky : ℝ, Model.eps_k ⟨t, beta, U, hyb⟩ kx ky = eps_k kx ky)
        ↔ t = 1)
    ∧ get_hyb_fm quad
        = 1 / (2 * Real.pi) ^ 2
          * (quad (fun kx ky => eps_k kx ky * eps_k kx ky)
              - quad (fun kx ky => eps_k kx ky)) := by
  refine ⟨fun kx ky => rfl, ⟨fun h => ?_, fun h kx ky => ?_⟩, rfl⟩
  · have h0 := h 0 0
    simp only [Model.eps_k, eps_k, Real.cos_zero] at h0
    linarith
  · simp only [Model.eps_k, eps_k, h]
    ring

/-- Claim C2: for every model with positive inverse temperature, the
impurity solver returns a sequence of the hybridization's length whose
entries are `1 / (iwn - hyb[n] - U/2)`. -/
theorem c2_impurity_solve (m : Model) (hbeta : 0 < m.beta) :
    (ImpuritySolver.solve m).length = m.hyb.length
    ∧ ∀ n, n < m.hyb.length →
        (ImpuritySolver.solve m).getD n 0
          = 1 / (iwn m.beta n - m.hyb.getD n 0 - ((m.U / 2 : ℝ) : ℂ)) :=
  ⟨solve_length m, fun _ hn => solve_getD m hn⟩

/-- Claim C2 witness: the solver evaluated at a concrete one-frequency
model with `t = -1`, `beta = 100`, `U = 0`, zero hybridization. -/
theorem c2_impurity_solve_witness :
    (ImpuritySolver.solve ⟨-1, 100, 0, [0]⟩).getD 0 0
      = 1 / (iwn 100 0 - (0 : ℂ) - (((0 : ℝ) / 2 : ℝ) : ℂ)) := by
  have h := (c2_impurity_solve ⟨-1, 100, 0, [0]⟩ (by norm_num)).2 0
    (by norm_num)
  simpa using h

/-- Claim C4: when the impurity solver's denominators are nonzero, the
self-energy the self-consistency step extracts from the solver's output is
exactly the Hartree value `U/2` at every frequency. -/
theorem c4_extraction_recovers_hartree (m : Model) (hbeta : 0 < m.beta)
    (hden : ∀ n, n < m.hyb.length →
      iwn m.beta n - m.hyb.getD n 0 - ((m.U / 2 : ℝ) : ℂ) ≠ 0) :
    ∀ n, n < m.hyb.length →
      (SelfConsistency.self_energy m (ImpuritySolver.solve m)).getD n 0
        = ((m.U / 2 : ℝ) : ℂ) := by
  intro n hn
  have hn' : n < (ImpuritySolver.solve m).length := by
    rw [solve_length]; exact hn
  rw [self_energy_getD m _ hn', solve_getD m hn, one_div_one_div]
  ring

/-- Claim C4 witness: a concrete one-frequency model with zero
hybridization and `U = 0`; the extracted self-energy is `0/2 = 0`. -/
theorem c4_extraction_recovers_hartree_witness :
    (SelfConsistency.self_energy (Model.mk (-1) 100 0 [0])
        (ImpuritySolver.solve (Model.mk (-1) 100 0 [0]))).getD 0 0
      = ((((Model.mk (-1) 100 0 [0]).U / 2 : ℝ)) : ℂ) := by
  refine c4_extraction_recovers_hartree ⟨-1, 100, 0, [0]⟩ (by norm_num)
    (fun n hn => ?_) 0 (by norm_num)
  intro h
  have him := congrArg Complex.im h
  rw [Complex.sub_im, Complex.sub_im, iwn_im, Complex.ofReal_im,
    Complex.zero_im] at him
  have hlt : (0 : ℝ) < (2 * n + 1) * Real.pi / 100 := by positivity
  have hhyb : (([0] : List ℂ).getD n 0).im = 0 := by
    rcases n with _ | k <;> simp
  simp only [hhyb] at him
  linarith

/-- Claim C5 counterexample: with `beta = pi > 0`, `U = 0` and the
hybridization entry `I`, the impurity solver's denominator at `n = 0`
vanishes exactly, refuting the claim that it is nonzero for every complex
hybridization sequence. -/
theorem c5_counterexample :
    0 < (Model.mk (-1) Real.pi 0 [Complex.I]).beta
    ∧ iwn (Model.mk (-1) Real.pi 0 [Complex.I]).beta 0
        - (Model.mk (-1) Real.pi 0 [Complex.I]).hyb.getD 0 0
        - (((Model.mk (-1) Real.pi 0 [Complex.I]).U / 2 : ℝ) : ℂ) = 0 := by
  refine ⟨Real.pi_pos, ?_⟩
  show iwn Real.pi 0 - ([Complex.I] : List ℂ).getD 0 0
    - (((0 : ℝ) / 2 : ℝ) : ℂ) = 0
  rw [iwn_eq_ofReal_mul_I]
  have h1 : ((2 * ((0 : ℕ) : ℝ) + 1) * Real.pi / Real.pi : ℝ) = 1 := by
    rw [Nat.cast_zero]
    field_simp
  rw [h1]
  simp

/-- Claim C5 amended: the denominator `iwn - hyb[n] - U/2` is nonzero
whenever the imaginary part of the hybridization entry differs from
`(2n+1) pi / beta` — in particular for every real-valued (e.g. zero)
hybridization entry with `beta > 0` — because then the denominator's
imaginary part is nonzero. -/
theorem c5_amended_denominator_nonzero (m : Model) (n : ℕ)
    (hbeta : 0 < m.beta)
    (hhyb : (m.hyb.getD n 0).im ≠ (2 * n + 1) * Real.pi / m.beta) :
    iwn m.beta n - m.hyb.getD n 0 - ((m.U / 2 : ℝ) : ℂ) ≠ 0 := by
  intro h
  have him := congrArg Complex.im h
  rw [Complex.sub_im, Complex.sub_im, iwn_im, Complex.ofReal_im,
    Complex.zero_im] at him
  exact hhyb (by linarith)

/-- Claim C5 amended witness: the driver's concrete starting model
(zero hybridization, `beta = 100`) has a nonzero denominator at `n = 0`. -/
theorem c5_amended_denominator_nonzero_witness :
    iwn (Model.mk (-1) 100 0 [0]).beta 0
      - (Model.mk (-1) 100 0 [0]).hyb.getD 0 0
      - (((Model.mk (-1) 100 0 [0]).U / 2 : ℝ) : ℂ) ≠ 0 := by
  refine c5_amended_denominator_nonzero ⟨-1, 100, 0, [0]⟩ 0 (by norm_num) ?_
  have hlt : (0 : ℝ) < (2 * (0 : ℕ) + 1) * Real.pi / 100 := by positivity
  simpa using ne_of_lt hlt

/-- Claim C1: for a model with `beta > 0`, a hybridization of length `N`
and an impurity Green function of length `N` with no zero entry, the
self-consistency step returns a length-`N` sequence whose entries are
`iwn - 1/G_new[n] - Sigma[n]`, where `Sigma[n] = iwn - hyb[n] - 1/G_imp[n]`
and `G_new[n] = (1/(2 pi)^2) * (quad (Re g_n) + I * quad (Im g_n))` with
`g_n kx ky = 1/(iwn - eps(kx, ky) - Sigma[n])`. -/
theorem c1_run_selfconsistency (quad : (ℝ → ℝ → ℝ) → ℝ) (m : Model)
    (G : List ℂ) (hbeta : 0 < m.beta) (hlen : m.hyb.length = G.length)
    (hnz : ∀ z ∈ G, z ≠ 0) :
    (SelfConsistency.run_selfconsistency quad m G).length = G.length
    ∧ ∀ n, n < G.length →
        (SelfConsistency.run_selfconsistency quad m G).getD n 0
          = iwn m.beta n
            - 1 / ((1 / (((2 * Real.pi) ^ 2 : ℝ) : ℂ))
                * (((quad fun kx ky => ((1 : ℂ) / (iwn m.beta n
                      - ((m.eps_k kx ky : ℝ) : ℂ)
                      - (iwn m.beta n - m.hyb.getD n 0
                          - 1 / G.getD n 0))).re : ℝ) : ℂ)
                  + Complex.I * ((quad fun kx ky => ((1 : ℂ) / (iwn m.beta n
                      - ((m.eps_k kx ky : ℝ) : ℂ)
                      - (iwn m.beta n - m.hyb.getD n 0
                          - 1 / G.getD n 0))).im : ℝ) : ℂ)))
            - (iwn m.beta n - m.hyb.getD n 0 - 1 / G.getD n 0) := by
  refine ⟨run_selfconsistency_length quad m G, fun n hn => ?_⟩
  have hσ : (SelfConsistency.self_energy m G).getD n 0
      = iwn m.beta n - m.hyb.getD n 0 - 1 / G.getD n 0 :=
    self_energy_getD m G hn
  rw [run_selfconsistency_getD quad m G hn, green_impurity_new_getD quad m G hn]
  unfold SelfConsistency.green_lattice_scalar_real
    SelfConsistency.green_lattice_scalar_imag
  simp only [hσ]
  ring

/-- Claim C1 witness: the step applied through the trivial quadrature to a
concrete one-frequency model and the Green function sequence `[1]`. -/
theorem c1_run_selfconsistency_witness :
    (SelfConsistency.run_selfconsistency zeroQuad
        (Model.mk (-1) 100 0 [0]) [1]).length = 1
    ∧ (SelfConsistency.run_selfconsistency zeroQuad
        (Model.mk (-1) 100 0 [0]) [1]).getD 0 0
      = iwn (Model.mk (-1) 100 0 [0]).beta 0
        - 1 / ((1 / (((2 * Real.pi) ^ 2 : ℝ) : ℂ))
            * (((zeroQuad fun kx ky => ((1 : ℂ)
                  / (iwn (Model.mk (-1) 100 0 [0]).beta 0
                  - (((Model.mk (-1) 100 0 [0]).eps_k kx ky : ℝ) : ℂ)
                  - (iwn (Model.mk (-1) 100 0 [0]).beta 0
                      - (Model.mk (-1) 100 0 [0]).hyb.getD 0 0
                      - 1 / ([1] : List ℂ).getD 0 0))).re : ℝ) : ℂ)
              + Complex.I * ((zeroQuad fun kx ky => ((1 : ℂ)
                  / (iwn (Model.mk (-1) 100 0 [0]).beta 0
                  - (((Model.mk (-1) 100 0 [0]).eps_k kx ky : ℝ) : ℂ)
                  - (iwn (Model.mk (-1) 100 0 [0]).beta 0
                      - (Model.mk (-1) 100 0 [0]).hyb.getD 0 0
                      - 1 / ([1] : List ℂ).getD 0 0))).im : ℝ) : ℂ)))
        - (iwn (Model.mk (-1) 100 0 [0]).beta 0
            - (Model.mk (-1) 100 0 [0]).hyb.getD 0 0
            - 1 / ([1] : List ℂ).getD 0 0) :=
  ⟨(c1_run_selfconsistency zeroQuad (Model.mk (-1) 100 0 [0]) [1]
      (by norm_num) rfl (by simp)).1,
   (c1_run_selfconsistency zeroQuad (Model.mk (-1) 100 0 [0]) [1]
      (by norm_num) rfl (by simp)).2 0 (by norm_num)⟩

/-- Claim C3: the driver starts from the zero hybridization of length 200,
runs the build-model / solve / self-consistency cycle exactly five times
with no early exit — the final hybridization is the five-fold iterate of
the one-step map on the zero sequence — and returns the frequency grid
`omega_n = (2n+1) pi / beta` alongside it. -/
theorem c3_driver (quad : (ℝ → ℝ → ℝ) → ℝ) :
    (main quad).2 = (oneStep quad)^[5] (List.replicate 200 0)
    ∧ (main quad).1.length = 200
    ∧ ∀ n, n < 200 →
        (main quad).1.getD n 0 = (2 * (n : ℝ) + 1) * Real.pi / 100 := by
  refine ⟨main_snd_eq quad, ?_, fun n hn => ?_⟩
  · rw [main_fst_eq]
    simp
  · rw [main_fst_eq, getD_range_map _ _ hn]

/-- Claim C3 witness: the driver through the trivial quadrature; its first
frequency is `pi / 100`. -/
theorem c3_driver_witness :
    (main zeroQuad).2 = (oneStep zeroQuad)^[5] (List.replicate 200 0)
    ∧ (main zeroQuad).1.getD 0 0 = (2 * ((0 : ℕ) : ℝ) + 1) * Real.pi / 100 :=
  ⟨(c3_driver zeroQuad).1, (c3_driver zeroQuad).2.2 0 (by norm_num)⟩

/-- Claim C7: every operation preserves the frequency-sequence length:
the solver output matches the hybridization's length; the self-consistency
intermediates and output match the Green function's length; the driver's
frequency grid and final hybridization both have length 200. -/
theorem c7_length_invariant :
    (∀ m : Model, (ImpuritySolver.solve m).length = m.hyb.length)
    ∧ (∀ (m : Model) (G : List ℂ),
        (SelfConsistency.self_energy m G).length = G.length)
    ∧ (∀ (quad : (ℝ → ℝ → ℝ) → ℝ) (m : Model) (G : List ℂ),
        (SelfConsistency.green_impurity_new quad m G).length = G.length)
    ∧ (∀ (quad : (ℝ → ℝ → ℝ) → ℝ) (m : Model) (G : List ℂ),
        (SelfConsistency.run_selfconsistency quad m G).length = G.length)
    ∧ ∀ quad : (ℝ → ℝ → ℝ) → ℝ,
        (main quad).1.length = 200 ∧ (main quad).2.length = 200 := by
  refine ⟨solve_length, self_energy_length, green_impurity_new_length,
    run_selfconsistency_length, fun quad => ⟨?_, ?_⟩⟩
  · rw [main_fst_eq]
    simp
  · rw [main_snd_eq, iterate_oneStep_length, List.length_replicate]

theorem inner_eps (kx : ℝ) :
    ∫ ky in (-Real.pi)..Real.pi, eps_k kx ky
      = -4 * Real.pi * Real.cos kx := by
  simp only [eps_k]
  rw [intervalIntegral.integral_const_mul,
    intervalIntegral.integral_add (intervalIntegrable_const)
      (Real.continuous_cos.intervalIntegrable _ _),
    intervalIntegral.integral_const, integral_cos]
  simp [Real.sin_pi]
  ring

theorem inner_eps_sq (kx : ℝ) :
    ∫ ky in (-Real.pi)..Real.pi, eps_k kx ky * eps_k kx ky
      = 8 * Real.pi * Real.cos kx ^ 2 + 4 * Real.pi := by
  have hint : (fun ky => eps_k kx ky * eps_k kx ky)
      = fun ky => (4 * Real.cos kx ^ 2
          + (8 * Real.cos kx) * Real.cos ky) + 4 * Real.cos ky ^ 2 := by
    funext ky
    simp only [eps_k]
    ring
  rw [hint,
    intervalIntegral.integral_add
      ((by fun_prop :
          Continuous fun ky : ℝ => 4 * Real.cos kx ^ 2
            + (8 * Real.cos kx) * Real.cos ky).intervalIntegrable _ _)
      ((by fun_prop :
          Continuous fun ky : ℝ => 4 * Real.cos ky ^ 2).intervalIntegrable
        _ _),
    intervalIntegral.integral_add (intervalIntegrable_const)
      ((by fun_prop :
          Continuous fun ky : ℝ =>
            (8 * Real.cos kx) * Real.cos ky).intervalIntegrable _ _),
    intervalIntegral.integral_const, intervalIntegral.integral_const_mul,
    intervalIntegral.integral_const_mul, integral_cos, integral_cos_sq]
  simp [Real.sin_pi, Real.cos_pi]
  ring

theorem exactQuad_eps_k : exactQuad (fun kx ky => eps_k kx ky) = 0 := by
  unfold exactQuad
  simp only [inner_eps]
  rw [intervalIntegral.integral_const_mul, integral_cos]
  simp [Real.sin_pi]

theorem exactQuad_eps_k_sq :
    exactQuad (fun kx ky => eps_k kx ky * eps_k kx ky)
      = 16 * Real.pi ^ 2 := by
  unfold exactQuad
  simp only [inner_eps_sq]
  rw [intervalIntegral.integral_add
      ((by fun_prop :
          Continuous fun kx : ℝ =>
            8 * Real.pi * Real.cos kx ^ 2).intervalIntegrable _ _)
      (intervalIntegrable_const),
    intervalIntegral.integral_const_mul, integral_cos_sq,
    intervalIntegral.integral_const]
  simp [Real.sin_pi, Real.cos_pi]
  ring

/-- Claim C9: under the exact interpretation of the 2-D quadrature, the
Brillouin-zone average of the module-level dispersion is exactly zero and
the hybridization first moment evaluates to exactly 4 (hence within any
positive quadrature tolerance such as `1e-6` of 4). -/
theorem c9_first_moment :
    1 / (2 * Real.pi) ^ 2 * exactQuad (fun kx ky => eps_k kx ky) = 0
    ∧ get_hyb_fm exactQuad = 4
    ∧ |get_hyb_fm exactQuad - 4| ≤ 1e-6 := by
  have h4 : get_hyb_fm exactQuad = 4 := by
    simp only [get_hyb_fm, exactQuad_eps_k, exactQuad_eps_k_sq]
    have hpi : Real.pi ≠ 0 := Real.pi_ne_zero
    field_simp
    ring
  refine ⟨?_, h4, ?_⟩
  · rw [exactQuad_eps_k]
    ring
  · rw [h4]
    norm_num

end SolverIQ
